import Mathlib

/-!
Shallow embedding of the task store in `src/src/hooks/useTasks.ts`.

JavaScript numbers are modelled by `JSNum`: either NaN, an infinity, or a
finite value carried as a rational. Comparisons involving NaN are false, as
in JS; negative zero is not modelled (no verified code path produces it).
ISO timestamp strings are modelled by their millisecond value as an integer
(`Date.getTime` / `toISOString` is an order-isomorphism onto these).
`crypto.randomUUID()` is modelled by an explicit id-supply argument.

The helper modules `@/utils/logic` and `@/utils/seed` are imported by the
hook but are not part of the repository snapshot; their definitions are
modelled from the spec and marked as such in their doc comments.
-/

namespace TaskGlitch

inductive JSNum where
  | nan : JSNum
  | posInf : JSNum
  | negInf : JSNum
  | fin : ℚ → JSNum
deriving DecidableEq, Repr

namespace JSNum

/-- JS `<=` on numbers: any comparison with NaN is false. -/
def le : JSNum → JSNum → Bool
  | .nan, _ => false
  | _, .nan => false
  | .negInf, _ => true
  | _, .negInf => false
  | _, .posInf => true
  | .posInf, _ => false
  | .fin a, .fin b => a ≤ b

/-- JS `<` on numbers: any comparison with NaN is false. -/
def lt : JSNum → JSNum → Bool
  | .nan, _ => false
  | _, .nan => false
  | .negInf, .negInf => false
  | .negInf, _ => true
  | _, .negInf => false
  | .posInf, _ => false
  | _, .posInf => true
  | .fin a, .fin b => a < b

/-- JS `Number.isFinite`. -/
def isFinite : JSNum → Bool
  | .fin _ => true
  | _ => false

/-- JS `+` on numbers. -/
def add : JSNum → JSNum → JSNum
  | .nan, _ => .nan
  | _, .nan => .nan
  | .posInf, .negInf => .nan
  | .negInf, .posInf => .nan
  | .posInf, _ => .posInf
  | _, .posInf => .posInf
  | .negInf, _ => .negInf
  | _, .negInf => .negInf
  | .fin a, .fin b => .fin (a + b)

/-- JS `*` on numbers (sign of zero ignored). -/
def mul : JSNum → JSNum → JSNum
  | .nan, _ => .nan
  | _, .nan => .nan
  | .posInf, .posInf => .posInf
  | .posInf, .negInf => .negInf
  | .negInf, .posInf => .negInf
  | .negInf, .negInf => .posInf
  | .posInf, .fin b => if b = 0 then .nan else if 0 < b then .posInf else .negInf
  | .fin a, .posInf => if a = 0 then .nan else if 0 < a then .posInf else .negInf
  | .negInf, .fin b => if b = 0 then .nan else if 0 < b then .negInf else .posInf
  | .fin a, .negInf => if a = 0 then .nan else if 0 < a then .negInf else .posInf
  | .fin a, .fin b => .fin (a * b)

/-- JS `/` on numbers (sign of zero ignored: `x / 0` follows the sign of `x`). -/
def div : JSNum → JSNum → JSNum
  | .nan, _ => .nan
  | _, .nan => .nan
  | .posInf, .posInf => .nan
  | .posInf, .negInf => .nan
  | .negInf, .posInf => .nan
  | .negInf, .negInf => .nan
  | .posInf, .fin b => if b < 0 then .negInf else .posInf
  | .negInf, .fin b => if b < 0 then .posInf else .negInf
  | .fin _, .posInf => .fin 0
  | .fin _, .negInf => .fin 0
  | .fin a, .fin b =>
      if b = 0 then (if a = 0 then .nan else if 0 < a then .posInf else .negInf)
      else .fin (a / b)

end JSNum

/-- JS `Number(x)` applied to a possibly-missing numeric field:
`Number(undefined)` is NaN. -/
def jsOfOpt : Option JSNum → JSNum
  | none => .nan
  | some x => x

/-- The `Task` record of `@/types` as produced and consumed by the hook.
`status` and `priority` are kept as strings, matching the string comparisons
in the source (`t.status === 'Done'` etc.). -/
structure Task where
  id : String
  title : String
  revenue : JSNum
  timeTaken : JSNum
  priority : String
  status : String
  notes : String
  createdAt : ℤ
  completedAt : Option ℤ
deriving DecidableEq, Repr

/-- One loosely-typed record of the external ingestion input (`input: any[]`
in `normalizeTasks`). Every field may be absent; numeric fields carry a JS
number when present (a falsy/absent `createdAt` or `completedAt` is `none`). -/
structure RawRecord where
  id : Option String := none
  title : Option String := none
  revenue : Option JSNum := none
  timeTaken : Option JSNum := none
  priority : Option String := none
  status : Option String := none
  notes : Option String := none
  createdAt : Option ℤ := none
  completedAt : Option ℤ := none
deriving Repr

/-- One day in milliseconds, `24 * 3600 * 1000` in the source. -/
def dayMs : ℤ := 24 * 3600 * 1000

/-- Normalization of one raw record at index `idx`, from the body of
`normalizeTasks` in `useTasks.ts`. `uuid idx` is the UUID drawn by
`crypto.randomUUID()` for this record when `t.id` is absent. -/
def normalizeOne (uuid : ℕ → String) (now : ℤ) (idx : ℕ) (t : RawRecord) : Task :=
  let created : ℤ :=
    match t.createdAt with
    | some c => c
    | none => now - (((idx : ℤ) + 1) * dayMs)
  let completed : Option ℤ :=
    match t.completedAt with
    | some c => some c
    | none => if t.status = some "Done" then some (created + dayMs) else none
  { id := t.id.getD (uuid idx)
    title := t.title.getD "Untitled Task"
    revenue := if (jsOfOpt t.revenue).isFinite then jsOfOpt t.revenue else JSNum.fin 0
    timeTaken := if JSNum.lt (JSNum.fin 0) (jsOfOpt t.timeTaken) then jsOfOpt t.timeTaken
                 else JSNum.fin 1
    priority := t.priority.getD "Medium"
    status := t.status.getD "Todo"
    notes := t.notes.getD ""
    createdAt := created
    completedAt := completed }

/-- Function `normalizeTasks` from `useTasks.ts` (the input is already a list, so the
`Array.isArray` guard is vacuous here). -/
def normalizeTasks (uuid : ℕ → String) (now : ℤ) (input : List RawRecord) : List Task :=
  input.mapIdx (normalizeOne uuid now)

/-- The state held by the hook: the task collection, the load flags, and the
single-slot delete/undo cell (`lastDeleted`, `undoOpen`). -/
structure HookState where
  tasks : List Task
  loading : Bool
  error : Option String
  lastDeleted : Option Task
  undoOpen : Bool
deriving Repr

/-- The hook's initial state: empty collection, loading, no error, undo idle. -/
def initialState : HookState :=
  { tasks := [], loading := true, error := none, lastDeleted := none, undoOpen := false }

/-- The argument of `addTask`: `Omit<Task, 'id'> & { id?: string }`. -/
structure AddInput where
  id : Option String := none
  title : String
  revenue : JSNum
  timeTaken : JSNum
  priority : String
  status : String
  notes : String
  createdAt : ℤ := 0
  completedAt : Option ℤ := none
deriving Repr

/-- Function `addTask` from `useTasks.ts`: `now` is the value of `new Date()` during
the call and `freshId` the UUID drawn by `crypto.randomUUID()` (used only
when no id is supplied). The explicit fields of the returned object literal
override the spread of `task`, so `createdAt` and `completedAt` of the input
are discarded. -/
def addTask (st : HookState) (task : AddInput) (freshId : String) (now : ℤ) : HookState :=
  let id := task.id.getD freshId
  let timeTaken := if JSNum.le task.timeTaken (JSNum.fin 0) then JSNum.fin 1 else task.timeTaken
  let createdAt := now
  let completedAt := if task.status = "Done" then some createdAt else none
  { st with tasks := st.tasks ++
      [{ id := id, title := task.title, revenue := task.revenue, timeTaken := timeTaken,
         priority := task.priority, status := task.status, notes := task.notes,
         createdAt := createdAt, completedAt := completedAt }] }

/-- A `Partial<Task>` patch: each field is present (`some`) or absent. -/
structure Patch where
  id : Option String := none
  title : Option String := none
  revenue : Option JSNum := none
  timeTaken : Option JSNum := none
  priority : Option String := none
  status : Option String := none
  notes : Option String := none
  createdAt : Option ℤ := none
  completedAt : Option ℤ := none
deriving Repr

/-- The JS object spread `{ ...t, ...patch }`: every field present in the
patch overrides the task's field. -/
def applyPatch (t : Task) (p : Patch) : Task :=
  { id := p.id.getD t.id
    title := p.title.getD t.title
    revenue := p.revenue.getD t.revenue
    timeTaken := p.timeTaken.getD t.timeTaken
    priority := p.priority.getD t.priority
    status := p.status.getD t.status
    notes := p.notes.getD t.notes
    createdAt := p.createdAt.getD t.createdAt
    completedAt := match p.completedAt with
      | some c => some c
      | none => t.completedAt }

/-- The body of the `prev.map` in `updateTask`: merge the patch, stamp
`completedAt` on a (not-Done)→Done transition, then re-clamp `timeTaken`. -/
def updateOne (id : String) (p : Patch) (now : ℤ) (t : Task) : Task :=
  if t.id = id then
    let updated := applyPatch t p
    let updated := if t.status ≠ "Done" ∧ updated.status = "Done"
      then { updated with completedAt := some now } else updated
    if JSNum.le updated.timeTaken (JSNum.fin 0)
      then { updated with timeTaken := JSNum.fin 1 } else updated
  else t

/-- Function `updateTask` from `useTasks.ts`. -/
def updateTask (st : HookState) (id : String) (p : Patch) (now : ℤ) : HookState :=
  { st with tasks := st.tasks.map (updateOne id p now) }

/-- Function `deleteTask` from `useTasks.ts`: capture the first task with the given id
(or `none`) into the holding cell, open the undo window, and filter the id
out of the collection. -/
def deleteTask (st : HookState) (id : String) : HookState :=
  { st with
    tasks := st.tasks.filter (fun t => !(t.id == id))
    lastDeleted := st.tasks.find? (fun t => t.id == id)
    undoOpen := true }

/-- Function `undoDelete` from `useTasks.ts`: no-op unless a task is held and the undo
window is open; otherwise re-append the held task and reset the cell. -/
def undoDelete (st : HookState) : HookState :=
  match st.lastDeleted with
  | none => st
  | some t =>
      if st.undoOpen
        then { st with tasks := st.tasks ++ [t], lastDeleted := none, undoOpen := false }
        else st

/-- Function `clearUndo` from `useTasks.ts`: discard the held task and close the window. -/
def clearUndo (st : HookState) : HookState :=
  { st with lastDeleted := none, undoOpen := false }

/-- Modelled from the spec: `computeTotalRevenue` lives in `@/utils/logic`,
which is not part of the snapshot; per §4.2 it is the sum of `revenue` over
all tasks. -/
def computeTotalRevenue (ts : List Task) : JSNum :=
  ts.foldl (fun s t => JSNum.add s t.revenue) (JSNum.fin 0)

/-- The inline `tasks.reduce((s, t) => s + t.timeTaken, 0)` from the
`metrics` memo in `useTasks.ts`. -/
def totalTimeTakenOf (ts : List Task) : JSNum :=
  ts.foldl (fun s t => JSNum.add s t.timeTaken) (JSNum.fin 0)

/-- Modelled from the spec: `computeTimeEfficiency` lives in `@/utils/logic`,
which is not part of the snapshot; per §4.2 it is a percentage of effort on
Done tasks relative to total effort. -/
def computeTimeEfficiency (ts : List Task) : JSNum :=
  JSNum.mul (JSNum.fin 100)
    (JSNum.div (totalTimeTakenOf (ts.filter (fun t => t.status == "Done")))
      (totalTimeTakenOf ts))

/-- Modelled from the spec: `computeRevenuePerHour` lives in `@/utils/logic`,
which is not part of the snapshot; per §4.2 it is
`totalRevenue / totalTimeTaken` (ratio of sums). -/
def computeRevenuePerHour (ts : List Task) : JSNum :=
  JSNum.div (computeTotalRevenue ts) (totalTimeTakenOf ts)

/-- Modelled from the spec: `computeAverageROI` lives in `@/utils/logic`,
which is not part of the snapshot; per §4.2 it is the arithmetic mean of the
per-task ROI `revenue / timeTaken` (mean of ratios). -/
def computeAverageROI (ts : List Task) : JSNum :=
  JSNum.div
    (ts.foldl (fun s t => JSNum.add s (JSNum.div t.revenue t.timeTaken)) (JSNum.fin 0))
    (JSNum.fin (ts.length : ℚ))

/-- Modelled from the spec: `computePerformanceGrade` lives in
`@/utils/logic`, which is not part of the snapshot; per §4.1 it is a
monotonic threshold table over the average ROI whose baseline label is
"Needs Improvement" (the exact cut points are a configuration detail). -/
def computePerformanceGrade (roi : JSNum) : String :=
  if JSNum.le (JSNum.fin 100) roi then "Excellent"
  else if JSNum.le (JSNum.fin 50) roi then "Good"
  else "Needs Improvement"

/-- The `Metrics` record of `@/types`. -/
structure Metrics where
  totalRevenue : JSNum
  totalTimeTaken : JSNum
  timeEfficiencyPct : JSNum
  revenuePerHour : JSNum
  averageROI : JSNum
  performanceGrade : String
deriving DecidableEq, Repr

/-- Constant `INITIAL_METRICS` from `useTasks.ts`: the zero sentinel. -/
def INITIAL_METRICS : Metrics :=
  { totalRevenue := JSNum.fin 0
    totalTimeTaken := JSNum.fin 0
    timeEfficiencyPct := JSNum.fin 0
    revenuePerHour := JSNum.fin 0
    averageROI := JSNum.fin 0
    performanceGrade := "Needs Improvement" }

/-- The `metrics` memo from `useTasks.ts`: an explicit empty-check
short-circuit to the sentinel, otherwise the aggregate of the helpers. -/
def metrics (tasks : List Task) : Metrics :=
  if tasks.length = 0 then INITIAL_METRICS
  else
    { totalRevenue := computeTotalRevenue tasks
      totalTimeTaken := totalTimeTakenOf tasks
      timeEfficiencyPct := computeTimeEfficiency tasks
      revenuePerHour := computeRevenuePerHour tasks
      averageROI := computeAverageROI tasks
      performanceGrade := computePerformanceGrade (computeAverageROI tasks) }

/-- Modelled from the spec: `generateSalesTasks` lives in `@/utils/seed`,
which is not part of the snapshot; per §6 the fallback generator returns
`n` synthetic task records. -/
def generateSalesTasks (n : ℕ) : List Task :=
  (List.range n).map (fun i =>
    { id := "seed-" ++ toString i, title := "Synthetic Task " ++ toString i,
      revenue := JSNum.fin 0, timeTaken := JSNum.fin 1, priority := "Medium",
      status := "Todo", notes := "", createdAt := 0, completedAt := none })

/-- Function `loadTasks` from the `useEffect` of `useTasks.ts`, applied to a settled
fetch outcome with the consuming context still mounted. On success the
normalized data is used, falling back to `generateSalesTasks 50` when it is
empty; on failure only the error is recorded. `finally` clears `loading` on
both paths. -/
def loadTasks (st : HookState) (res : Except String (List RawRecord))
    (uuid : ℕ → String) (now : ℤ) : HookState :=
  match res with
  | Except.error msg => { st with error := some msg, loading := false }
  | Except.ok data =>
      let normalized := normalizeTasks uuid now data
      let finalData := if 0 < normalized.length then normalized else generateSalesTasks 50
      { st with tasks := finalData, loading := false }

/-! Concrete sample data used by witnesses and counterexamples. -/

/-- Task A of the spec example: revenue 100, timeTaken 2. -/
def taskA : Task :=
  { id := "A", title := "A", revenue := JSNum.fin 100, timeTaken := JSNum.fin 2,
    priority := "Medium", status := "Todo", notes := "", createdAt := 0, completedAt := none }

/-- Task B of the spec example: revenue 300, timeTaken 3. -/
def taskB : Task :=
  { id := "B", title := "B", revenue := JSNum.fin 300, timeTaken := JSNum.fin 3,
    priority := "Medium", status := "Todo", notes := "", createdAt := 0, completedAt := none }

/-- A raw ingestion record whose revenue is the finite negative number -5. -/
def rNeg : RawRecord := { revenue := some (JSNum.fin (-5)) }

/-- A one-task state used by witnesses. -/
def stW : HookState :=
  { tasks := [taskA], loading := false, error := none, lastDeleted := none, undoOpen := false }

/-- An `addTask` input with no id, zero timeTaken and initial status Done. -/
def inputW : AddInput :=
  { id := none, title := "t", revenue := JSNum.fin 10, timeTaken := JSNum.fin 0,
    priority := "Low", status := "Done", notes := "" }

/-- A fixed id supply standing in for `crypto.randomUUID()`. -/
def uuidW : ℕ → String := fun _ => "u"

/-- A task already in status Done with a recorded completion time. -/
def taskDone : Task :=
  { id := "a", title := "d", revenue := JSNum.fin 0, timeTaken := JSNum.fin 1,
    priority := "Medium", status := "Done", notes := "", createdAt := 0,
    completedAt := some 500 }

/-- A patch that moves the status away from Done and itself carries a
`completedAt` value. -/
def patchAway : Patch := { status := some "Todo", completedAt := some 999 }

/-- A state holding only `taskDone`. -/
def stDone : HookState :=
  { tasks := [taskDone], loading := false, error := none, lastDeleted := none,
    undoOpen := false }

/-- A task in status Todo with no completion time. -/
def taskTodo : Task :=
  { id := "a", title := "t", revenue := JSNum.fin 0, timeTaken := JSNum.fin 1,
    priority := "Medium", status := "Todo", notes := "", createdAt := 0,
    completedAt := none }

/-- A patch that only sets the status to Done. -/
def patchDone : Patch := { status := some "Done" }

/-- A state holding only `taskTodo`. -/
def stTodo : HookState :=
  { tasks := [taskTodo], loading := false, error := none, lastDeleted := none,
    undoOpen := false }

/-- A patch that carries an id field. -/
def patchId : Patch := { id := some "b" }

/-- A sequence of `updateTask` calls: each entry is the target id, the patch
and the call time. -/
def applyUpdates (st : HookState) (ops : List (String × Patch × ℤ)) : HookState :=
  ops.foldl (fun s op => updateTask s op.1 op.2.1 op.2.2) st

/-- A single-call update sequence whose patch has no id field. -/
def opsW : List (String × Patch × ℤ) := [("A", { status := some "Done" }, 5)]

/-- A second sample task with an id distinct from `taskA`. -/
def taskB2 : Task :=
  { id := "B2", title := "b2", revenue := JSNum.fin 7, timeTaken := JSNum.fin 2,
    priority := "High", status := "Todo", notes := "", createdAt := 0, completedAt := none }

/-- A two-task state used by the delete/undo witnesses. -/
def stTwo : HookState :=
  { tasks := [taskA, taskB2], loading := false, error := none, lastDeleted := none,
    undoOpen := false }

/-! Helper lemmas shared by the claim theorems. -/

lemma updateOne_of_ne (tid : String) (p : Patch) (now : ℤ) (t : Task) (h : ¬ t.id = tid) :
    updateOne tid p now t = t := by
  rw [updateOne, if_neg h]

lemma updateOne_revenue (tid : String) (p : Patch) (now : ℤ) (t : Task) (h : t.id = tid) :
    (updateOne tid p now t).revenue = (applyPatch t p).revenue := by
  simp only [updateOne, if_pos h]
  split <;> split <;> rfl

lemma updateOne_timeTaken (tid : String) (p : Patch) (now : ℤ) (t : Task) (h : t.id = tid) :
    (updateOne tid p now t).timeTaken =
      (if JSNum.le (applyPatch t p).timeTaken (JSNum.fin 0) then JSNum.fin 1
       else (applyPatch t p).timeTaken) := by
  simp only [updateOne, if_pos h]
  split <;> split <;> simp_all

lemma updateOne_completedAt_stamp (tid : String) (p : Patch) (now : ℤ) (t : Task)
    (h : t.id = tid) (hnd : t.status ≠ "Done") (hd : (applyPatch t p).status = "Done") :
    (updateOne tid p now t).completedAt = some now := by
  simp only [updateOne, if_pos h, if_pos (And.intro hnd hd)]
  split <;> rfl

lemma updateOne_completedAt_keep (tid : String) (p : Patch) (now : ℤ) (t : Task)
    (h : t.id = tid) (hd : t.status = "Done") (hpc : p.completedAt = none) :
    (updateOne tid p now t).completedAt = t.completedAt := by
  have hno : ¬ (t.status ≠ "Done" ∧ (applyPatch t p).status = "Done") := by simp [hd]
  simp only [updateOne, if_pos h, if_neg hno]
  split <;> simp [applyPatch, hpc]

lemma updateOne_id_of_patch_none (tid : String) (p : Patch) (now : ℤ) (t : Task)
    (h : p.id = none) : (updateOne tid p now t).id = t.id := by
  by_cases hid : t.id = tid
  · simp only [updateOne, if_pos hid]
    split <;> split <;> simp [applyPatch, h]
  · rw [updateOne_of_ne tid p now t hid]

lemma normalizeOne_fields (uuid : ℕ → String) (now : ℤ) (idx : ℕ) (r : RawRecord) :
    JSNum.lt (JSNum.fin 0) (normalizeOne uuid now idx r).timeTaken = true ∧
    (normalizeOne uuid now idx r).revenue.isFinite = true := by
  constructor
  · simp only [normalizeOne]
    split
    · assumption
    · norm_num [JSNum.lt]
  · simp only [normalizeOne]
    split
    · assumption
    · norm_num [JSNum.isFinite]

lemma find_of_mem_nodup (ts : List Task) (t : Task) (hn : (ts.map Task.id).Nodup)
    (hm : t ∈ ts) : ts.find? (fun u => u.id == t.id) = some t := by
  induction ts with
  | nil => simp at hm
  | cons u rest ih =>
      simp only [List.map_cons, List.nodup_cons] at hn
      rcases List.mem_cons.1 hm with rfl | hm2
      · rw [List.find?_cons_of_pos (p := fun v : Task => v.id == t.id) _ (by simp)]
      · have hne : ¬ (u.id == t.id) = true := by
          rw [beq_iff_eq]
          intro hbeq
          exact hn.1 (hbeq ▸ List.mem_map_of_mem Task.id hm2)
        rw [List.find?_cons_of_neg (p := fun v : Task => v.id == t.id) _ hne]
        exact ih hn.2 hm2

lemma filter_ne_id_erase (ts : List Task) (t : Task) (hn : (ts.map Task.id).Nodup)
    (hm : t ∈ ts) : ts.filter (fun u => !(u.id == t.id)) = ts.erase t := by
  induction ts with
  | nil => simp at hm
  | cons u rest ih =>
      simp only [List.map_cons, List.nodup_cons] at hn
      rcases List.mem_cons.1 hm with rfl | hm2
      · rw [List.filter_cons_of_neg (p := fun v : Task => !(v.id == t.id)) (by simp),
          List.erase_cons_head]
        apply List.filter_eq_self.2
        intro a ha
        simp only [Bool.not_eq_eq_eq_not, Bool.not_true, beq_eq_false_iff_ne, ne_eq]
        intro haid
        exact hn.1 (haid ▸ List.mem_map_of_mem Task.id ha)
      · have huid : ¬ u.id = t.id := by
          intro hbeq
          exact hn.1 (hbeq ▸ List.mem_map_of_mem Task.id hm2)
        have hut : ¬ (u == t) = true := by
          rw [beq_iff_eq]
          intro h
          exact huid (by rw [h])
        rw [List.filter_cons_of_pos (p := fun v : Task => !(v.id == t.id)) (by simpa using huid),
          List.erase_cons_tail hut]
        rw [ih hn.2 hm2]

lemma undoDelete_apply (st : HookState) (t : Task) (h1 : st.lastDeleted = some t)
    (h2 : st.undoOpen = true) :
    undoDelete st =
      { st with tasks := st.tasks ++ [t], lastDeleted := none, undoOpen := false } := by
  simp [undoDelete, h1, h2]

lemma undoDelete_noop (st : HookState)
    (h : st.lastDeleted = none ∨ st.undoOpen = false) : undoDelete st = st := by
  rcases h with h | h
  · simp [undoDelete, h]
  · cases hcell : st.lastDeleted with
    | none => simp [undoDelete, hcell]
    | some t => simp [undoDelete, hcell, h]

/-! The claim theorems. -/

/-- Claim C1, counterexample: the claim asserts that after ingestion
normalization every task's revenue is ≥ 0, but `normalizeTasks` only checks
`Number.isFinite`: a finite negative revenue (-5) passes through unchanged,
and -5 is not ≥ 0 under the JS order. -/
theorem normalize_keeps_negative_revenue :
    (normalizeTasks uuidW 0 [rNeg]).map Task.revenue = [JSNum.fin (-5)] ∧
    JSNum.le (JSNum.fin 0) (JSNum.fin (-5)) = false := by
  constructor
  · norm_num [normalizeTasks, normalizeOne, rNeg, uuidW, jsOfOpt, JSNum.isFinite, JSNum.lt,
      List.mapIdx, List.mapIdx.go]
  · norm_num [JSNum.le]

/-- Claim C1, amended: after ingestion normalization every task's timeTaken
is strictly greater than 0 and its revenue is finite (non-finite or missing
revenue coerces to 0), but revenue may be negative; `addTask` and
`updateTask` coerce a merged timeTaken ≤ 0 to 1 and pass revenue through
without any validation. -/
theorem tasks_numeric_fields :
    (∀ (uuid : ℕ → String) (now : ℤ) (input : List RawRecord),
      ∀ t ∈ normalizeTasks uuid now input,
        JSNum.lt (JSNum.fin 0) t.timeTaken = true ∧ t.revenue.isFinite = true) ∧
    (∀ (st : HookState) (input : AddInput) (freshId : String) (now : ℤ),
      ∀ t ∈ (addTask st input freshId now).tasks,
        t ∈ st.tasks ∨
          (t.revenue = input.revenue ∧
           t.timeTaken =
             (if JSNum.le input.timeTaken (JSNum.fin 0) then JSNum.fin 1
              else input.timeTaken))) ∧
    (∀ (st : HookState) (tid : String) (p : Patch) (now : ℤ),
      ∀ t2 ∈ (updateTask st tid p now).tasks, ∃ t ∈ st.tasks,
        t2.revenue = (if t.id = tid then (applyPatch t p).revenue else t.revenue) ∧
        t2.timeTaken =
          (if t.id = tid then
            (if JSNum.le (applyPatch t p).timeTaken (JSNum.fin 0) then JSNum.fin 1
             else (applyPatch t p).timeTaken)
           else t.timeTaken)) := by
  refine ⟨fun uuid now input t ht => ?_, fun st input freshId now t ht => ?_,
    fun st tid p now t2 ht2 => ?_⟩
  · rw [normalizeTasks, List.mapIdx_eq_enum_map] at ht
    obtain ⟨⟨idx, r⟩, _, rfl⟩ := List.mem_map.1 ht
    exact normalizeOne_fields uuid now idx r
  · rw [addTask] at ht
    simp only [List.mem_append, List.mem_singleton] at ht
    rcases ht with h | rfl
    · exact Or.inl h
    · exact Or.inr ⟨rfl, rfl⟩
  · rw [updateTask] at ht2
    obtain ⟨t, htm, rfl⟩ := List.mem_map.1 ht2
    refine ⟨t, htm, ?_⟩
    by_cases hid : t.id = tid
    · rw [if_pos hid, if_pos hid, updateOne_revenue tid p now t hid,
        updateOne_timeTaken tid p now t hid]
      exact ⟨rfl, rfl⟩
    · rw [if_neg hid, if_neg hid, updateOne_of_ne tid p now t hid]
      exact ⟨rfl, rfl⟩

theorem tasks_numeric_fields_witness :
    JSNum.lt (JSNum.fin 0) (normalizeOne uuidW 0 0 rNeg).timeTaken = true ∧
    (normalizeOne uuidW 0 0 rNeg).revenue.isFinite = true :=
  tasks_numeric_fields.1 uuidW 0 [rNeg] (normalizeOne uuidW 0 0 rNeg)
    (by simp [normalizeTasks, List.mapIdx, List.mapIdx.go])

/-- Claim C2, counterexample: the claim asserts that whenever the status
moves away from Done the task's `completedAt` is left unchanged for every
patch, but `updateTask` merges the whole patch first, so a patch that itself
carries a `completedAt` value overwrites the stored one (500 becomes 999). -/
theorem updateTask_away_changes_completedAt :
    taskDone.status = "Done" ∧ (applyPatch taskDone patchAway).status ≠ "Done" ∧
    taskDone.completedAt = some 500 ∧
    (updateTask stDone "a" patchAway 1000).tasks.map Task.completedAt = [some 999] ∧
    (some (999 : ℤ)) ≠ some 500 := by
  refine ⟨rfl, by simp [applyPatch, patchAway, taskDone], rfl, ?_, by norm_num⟩
  norm_num [updateTask, updateOne, applyPatch, stDone, taskDone, patchAway, JSNum.le]

/-- Claim C2, amended: for the task at any position and any patch, if the
previous status is not Done and the merged status is Done, `updateTask` sets
`completedAt` to the current time, a timestamp ≥ the task's `createdAt`
(given that the clock is not behind the creation time); if the previous
status is Done and the merged status is not Done, `completedAt` is left
unchanged (not cleared) provided the patch does not itself carry a
`completedAt` field. -/
theorem updateTask_done_transition (st : HookState) (t : Task) (i : ℕ)
    (hi : i < st.tasks.length) (ht : st.tasks.get ⟨i, hi⟩ = t) (p : Patch) (now : ℤ)
    (hnow : t.createdAt ≤ now)
    (hj : i < (updateTask st t.id p now).tasks.length) :
    (t.status ≠ "Done" → (applyPatch t p).status = "Done" →
      ((updateTask st t.id p now).tasks.get ⟨i, hj⟩).completedAt = some now ∧
      t.createdAt ≤ now) ∧
    (t.status = "Done" → (applyPatch t p).status ≠ "Done" → p.completedAt = none →
      ((updateTask st t.id p now).tasks.get ⟨i, hj⟩).completedAt = t.completedAt) := by
  subst ht
  have hget : (updateTask st (st.tasks.get ⟨i, hi⟩).id p now).tasks.get ⟨i, hj⟩ =
      updateOne (st.tasks.get ⟨i, hi⟩).id p now (st.tasks.get ⟨i, hi⟩) := by
    simp [updateTask, List.get_eq_getElem, List.getElem_map]
  rw [hget]
  exact ⟨fun hnd hd =>
      ⟨updateOne_completedAt_stamp _ p now _ rfl hnd hd, hnow⟩,
    fun hd _ hpc => updateOne_completedAt_keep _ p now _ rfl hd hpc⟩

theorem updateTask_done_transition_witness :
    ((updateTask stTodo "a" patchDone 1000).tasks.get
        ⟨0, by norm_num [updateTask, stTodo]⟩).completedAt = some 1000 ∧
    taskTodo.createdAt ≤ 1000 :=
  (updateTask_done_transition stTodo taskTodo 0 (by norm_num [stTodo]) rfl patchDone 1000
      (by norm_num [taskTodo]) (by norm_num [updateTask, stTodo])).1
    (by simp [taskTodo]) (by simp [applyPatch, patchDone, taskTodo])

/-- Claim C3: on a collection with distinct task ids, `deleteTask t.id`
immediately followed by `undoDelete` yields exactly the original tasks with
`t` re-appended at the end (a permutation of the original collection), and
returns the undo machine to Idle with a null held value; calling
`undoDelete` while the held value is null or the window is closed is a
silent no-op. -/
theorem delete_undo_roundtrip :
    (∀ (st : HookState) (t : Task), (st.tasks.map Task.id).Nodup → t ∈ st.tasks →
      (undoDelete (deleteTask st t.id)).tasks = st.tasks.erase t ++ [t] ∧
      (undoDelete (deleteTask st t.id)).tasks.Perm st.tasks ∧
      (undoDelete (deleteTask st t.id)).lastDeleted = none ∧
      (undoDelete (deleteTask st t.id)).undoOpen = false) ∧
    (∀ st : HookState, st.lastDeleted = none ∨ st.undoOpen = false →
      undoDelete st = st) := by
  refine ⟨fun st t hn hm => ?_, fun st h => undoDelete_noop st h⟩
  have hfind : st.tasks.find? (fun u => u.id == t.id) = some t := find_of_mem_nodup _ _ hn hm
  have hfilter : st.tasks.filter (fun u => !(u.id == t.id)) = st.tasks.erase t :=
    filter_ne_id_erase _ _ hn hm
  have hdel : deleteTask st t.id =
      { st with tasks := st.tasks.erase t, lastDeleted := some t, undoOpen := true } := by
    simp [deleteTask, hfind, hfilter]
  rw [hdel, undoDelete_apply _ t rfl rfl]
  refine ⟨rfl, ?_, rfl, rfl⟩
  exact (List.perm_append_singleton t _).trans (List.perm_cons_erase hm).symm

theorem delete_undo_roundtrip_witness :
    (undoDelete (deleteTask stTwo taskA.id)).tasks = stTwo.tasks.erase taskA ++ [taskA] ∧
    undoDelete initialState = initialState :=
  ⟨(delete_undo_roundtrip.1 stTwo taskA (by simp [stTwo, taskA, taskB2])
      (by simp [stTwo])).1,
   delete_undo_roundtrip.2 initialState (Or.inl rfl)⟩

/-- Claim C4: the holding cell has capacity one. Every `deleteTask`
overwrites the held value with the newly removed task (or null) and opens
the window; after deleting A and then B (distinct ids, no intervening
undo), only B is held, A is in neither the collection nor the undone
collection, and `undoDelete` restores B at the end; after `deleteTask`
followed by `clearUndo`, a subsequent `undoDelete` changes nothing and the
held value is null. -/
theorem single_slot_holding_cell :
    (∀ (st : HookState) (tid : String),
      (deleteTask st tid).lastDeleted = st.tasks.find? (fun u => u.id == tid) ∧
      (deleteTask st tid).undoOpen = true) ∧
    (∀ (st : HookState) (A B : Task), (st.tasks.map Task.id).Nodup → A ∈ st.tasks →
      B ∈ st.tasks → ¬ A.id = B.id →
      (deleteTask (deleteTask st A.id) B.id).lastDeleted = some B ∧
      A ∉ (deleteTask (deleteTask st A.id) B.id).tasks ∧
      A ∉ (undoDelete (deleteTask (deleteTask st A.id) B.id)).tasks ∧
      (undoDelete (deleteTask (deleteTask st A.id) B.id)).tasks.getLast? = some B) ∧
    (∀ (st : HookState) (tid : String),
      undoDelete (clearUndo (deleteTask st tid)) = clearUndo (deleteTask st tid) ∧
      (clearUndo (deleteTask st tid)).lastDeleted = none) := by
  refine ⟨fun st tid => ⟨rfl, rfl⟩, fun st A B hn hA hB hAB => ?_,
    fun st tid => ⟨undoDelete_noop _ (Or.inl rfl), rfl⟩⟩
  have hB1 : B ∈ (deleteTask st A.id).tasks :=
    List.mem_filter.2 ⟨hB, by simpa using fun h => hAB h.symm⟩
  have hn1 : ((deleteTask st A.id).tasks.map Task.id).Nodup :=
    ((List.filter_sublist st.tasks).map Task.id).nodup hn
  have hfound : (deleteTask (deleteTask st A.id) B.id).lastDeleted = some B :=
    find_of_mem_nodup _ _ hn1 hB1
  have hAnot1 : A ∉ (deleteTask st A.id).tasks := by
    intro hmem
    have := (List.mem_filter.1 hmem).2
    simp at this
  have hAnot2 : A ∉ (deleteTask (deleteTask st A.id) B.id).tasks := by
    intro hmem
    exact hAnot1 (List.mem_filter.1 hmem).1
  have hundo : undoDelete (deleteTask (deleteTask st A.id) B.id) =
      { deleteTask (deleteTask st A.id) B.id with
        tasks := (deleteTask (deleteTask st A.id) B.id).tasks ++ [B],
        lastDeleted := none, undoOpen := false } :=
    undoDelete_apply _ B hfound rfl
  refine ⟨hfound, hAnot2, ?_, ?_⟩
  · rw [hundo]
    intro hmem
    rcases List.mem_append.1 hmem with h | h
    · exact hAnot2 h
    · rw [List.mem_singleton] at h
      exact hAB (by rw [h])
  · rw [hundo]
    exact List.getLast?_concat _

theorem single_slot_holding_cell_witness :
    (deleteTask (deleteTask stTwo taskA.id) taskB2.id).lastDeleted = some taskB2 ∧
    taskA ∉ (undoDelete (deleteTask (deleteTask stTwo taskA.id) taskB2.id)).tasks ∧
    undoDelete (clearUndo (deleteTask stTwo "x")) = clearUndo (deleteTask stTwo "x") := by
  have h := (single_slot_holding_cell.2.1 stTwo taskA taskB2
    (by simp [stTwo, taskA, taskB2]) (by simp [stTwo]) (by simp [stTwo])
    (by simp [taskA, taskB2]))
  exact ⟨h.1, h.2.2.1, (single_slot_holding_cell.2.2 stTwo "x").1⟩

/-- Claim C5: for every input, `addTask` appends exactly one new task at the
end of the collection with no error path; the new task's id is the supplied
id, or the freshly drawn UUID (unique in the collection when the draw is
fresh) when none is supplied; its timeTaken is the input coerced by the
1-minimum floor (values ≤ 0 become 1); its createdAt is the current time;
and its completedAt is the current time if and only if the initial status
is Done, otherwise absent. -/
theorem addTask_spec (st : HookState) (input : AddInput) (freshId : String) (now : ℤ)
    (hfresh : freshId ∉ st.tasks.map Task.id) :
    ∃ newT : Task,
      (addTask st input freshId now).tasks = st.tasks ++ [newT] ∧
      newT.id = input.id.getD freshId ∧
      (input.id = none → newT.id ∉ st.tasks.map Task.id) ∧
      newT.timeTaken =
        (if JSNum.le input.timeTaken (JSNum.fin 0) then JSNum.fin 1 else input.timeTaken) ∧
      newT.createdAt = now ∧
      newT.completedAt = (if input.status = "Done" then some now else none) ∧
      (addTask st input freshId now).error = st.error := by
  refine ⟨_, rfl, rfl, fun h => ?_, rfl, rfl, rfl, rfl⟩
  rw [h]
  simpa using hfresh

theorem addTask_spec_witness :
    ∃ newT : Task,
      (addTask initialState inputW "w" 7).tasks = initialState.tasks ++ [newT] ∧
      newT.id = inputW.id.getD "w" ∧
      (inputW.id = none → newT.id ∉ initialState.tasks.map Task.id) ∧
      newT.timeTaken =
        (if JSNum.le inputW.timeTaken (JSNum.fin 0) then JSNum.fin 1
         else inputW.timeTaken) ∧
      newT.createdAt = 7 ∧
      newT.completedAt = (if inputW.status = "Done" then some 7 else none) ∧
      (addTask initialState inputW "w" 7).error = initialState.error :=
  addTask_spec initialState inputW "w" 7 (by simp [initialState])

/-- Claim C6: the ingestion load is asymmetric. A successful load of an
empty sequence hands the store the non-empty synthetic set of the fallback
generator; a failed load records a non-null error message, leaves the
collection at its prior value, and never reaches the branch that invokes
the fallback generator. -/
theorem loadTasks_fallback_asymmetry (st : HookState) (uuid : ℕ → String) (now : ℤ)
    (msg : String) :
    ((loadTasks st (Except.ok []) uuid now).tasks = generateSalesTasks 50 ∧
     (loadTasks st (Except.ok []) uuid now).tasks.length = 50 ∧
     (loadTasks st (Except.ok []) uuid now).tasks ≠ []) ∧
    ((loadTasks st (Except.error msg) uuid now).tasks = st.tasks ∧
     (loadTasks st (Except.error msg) uuid now).error = some msg ∧
     (loadTasks st (Except.error msg) uuid now).error ≠ none) := by
  refine ⟨⟨rfl, ?_, ?_⟩, rfl, rfl, by simp [loadTasks]⟩
  · simp [loadTasks, normalizeTasks, generateSalesTasks]
  · have h50 : (loadTasks st (Except.ok []) uuid now).tasks.length = 50 := by
      simp [loadTasks, normalizeTasks, generateSalesTasks]
    intro hnil
    rw [hnil] at h50
    simp at h50

/-- Claim C7: on every non-empty collection `averageROI` is the arithmetic
mean of the per-task ratios `revenue / timeTaken`, while `revenuePerHour`
is the ratio of the sums; on the spec's example tasks A(100, 2) and
B(300, 3) they evaluate to the distinct values 75 and 80. -/
theorem averageROI_vs_revenuePerHour :
    (∀ ts : List Task, ts ≠ [] →
      (metrics ts).averageROI =
        JSNum.div
          (ts.foldl (fun s t => JSNum.add s (JSNum.div t.revenue t.timeTaken)) (JSNum.fin 0))
          (JSNum.fin (ts.length : ℚ)) ∧
      (metrics ts).revenuePerHour =
        JSNum.div (ts.foldl (fun s t => JSNum.add s t.revenue) (JSNum.fin 0))
          (ts.foldl (fun s t => JSNum.add s t.timeTaken) (JSNum.fin 0))) ∧
    (metrics [taskA, taskB]).averageROI = JSNum.fin 75 ∧
    (metrics [taskA, taskB]).revenuePerHour = JSNum.fin 80 ∧
    JSNum.fin 75 ≠ JSNum.fin 80 := by
  refine ⟨fun ts h => ?_, ?_, ?_, ?_⟩
  · have hl : ¬ ts.length = 0 := by simpa [List.length_eq_zero] using h
    rw [metrics, if_neg hl]
    exact ⟨rfl, rfl⟩
  · norm_num [metrics, computeAverageROI, taskA, taskB, JSNum.add, JSNum.div]
  · norm_num [metrics, computeRevenuePerHour, computeTotalRevenue, totalTimeTakenOf,
      taskA, taskB, JSNum.add, JSNum.div]
  · intro h
    rw [JSNum.fin.injEq] at h
    norm_num at h

theorem averageROI_vs_revenuePerHour_witness :
    (metrics [taskA, taskB]).averageROI =
      JSNum.div
        ([taskA, taskB].foldl (fun s t => JSNum.add s (JSNum.div t.revenue t.timeTaken))
          (JSNum.fin 0))
        (JSNum.fin (([taskA, taskB].length : ℕ) : ℚ)) :=
  (averageROI_vs_revenuePerHour.1 [taskA, taskB] (by simp)).1

/-- Claim C8: computing metrics on the empty collection hits the explicit
empty-check short-circuit and returns exactly the `INITIAL_METRICS`
sentinel: every numeric field is 0 and the grade is "Needs Improvement". -/
theorem metrics_empty_sentinel :
    metrics [] = INITIAL_METRICS ∧
    (metrics []).totalRevenue = JSNum.fin 0 ∧ (metrics []).totalTimeTaken = JSNum.fin 0 ∧
    (metrics []).timeEfficiencyPct = JSNum.fin 0 ∧ (metrics []).revenuePerHour = JSNum.fin 0 ∧
    (metrics []).averageROI = JSNum.fin 0 ∧
    (metrics []).performanceGrade = "Needs Improvement" :=
  ⟨rfl, rfl, rfl, rfl, rfl, rfl, rfl⟩

/-- Claim C9, counterexample: the claim asserts that a task's id survives
every `updateTask` patch, but the merge `{ ...t, ...patch }` lets a patch
that carries an `id` field overwrite it: the task with id "a" ends up with
id "b". -/
theorem updateTask_can_change_id :
    stDone.tasks.map Task.id = ["a"] ∧
    (updateTask stDone "a" patchId 0).tasks.map Task.id = ["b"] ∧
    ("b" : String) ≠ "a" := by
  refine ⟨rfl, ?_, by simp⟩
  norm_num [updateTask, updateOne, applyPatch, stDone, taskDone, patchId, JSNum.le]

/-- Claim C9, amended: across any sequence of `updateTask` calls whose
patches do not carry an `id` field, the id at every position of the
collection is unchanged. -/
theorem updateTask_id_immutable (st : HookState) (ops : List (String × Patch × ℤ))
    (h : ∀ op ∈ ops, op.2.1.id = none) :
    (applyUpdates st ops).tasks.map Task.id = st.tasks.map Task.id := by
  induction ops generalizing st with
  | nil => rfl
  | cons op rest ih =>
      have hstep : (updateTask st op.1 op.2.1 op.2.2).tasks.map Task.id =
          st.tasks.map Task.id := by
        simp only [updateTask, List.map_map]
        exact List.map_congr_left
          (fun t _ => updateOne_id_of_patch_none op.1 op.2.1 op.2.2 t (h op (by simp)))
      have hsplit : applyUpdates st (op :: rest) =
          applyUpdates (updateTask st op.1 op.2.1 op.2.2) rest := rfl
      rw [hsplit, ih _ (fun o ho => h o (by simp [ho])), hstep]

theorem updateTask_id_immutable_witness :
    (applyUpdates stW opsW).tasks.map Task.id = stW.tasks.map Task.id :=
  updateTask_id_immutable stW opsW
    (by intro op hop; simp only [opsW, List.mem_singleton] at hop; rw [hop])

/-- Claim C10: `updateTask` is frame-preserving: the collection keeps its
length and order, every position whose task id differs from the target id
is unchanged field-for-field, and when no task carries the target id the
whole state is unchanged. -/
theorem updateTask_frame (st : HookState) (tid : String) (p : Patch) (now : ℤ) :
    (updateTask st tid p now).tasks.length = st.tasks.length ∧
    (∀ (i : ℕ) (hi : i < st.tasks.length) (hj : i < (updateTask st tid p now).tasks.length),
      (st.tasks.get ⟨i, hi⟩).id ≠ tid →
      (updateTask st tid p now).tasks.get ⟨i, hj⟩ = st.tasks.get ⟨i, hi⟩) ∧
    ((∀ t ∈ st.tasks, t.id ≠ tid) → updateTask st tid p now = st) := by
  refine ⟨by simp [updateTask], fun i hi hj hne => ?_, fun hall => ?_⟩
  · simp only [updateTask] at hj ⊢
    rw [List.get_eq_getElem, List.getElem_map, updateOne, if_neg]
    · rfl
    · simpa using hne
  · have hmap : st.tasks.map (updateOne tid p now) = st.tasks.map (fun t => t) :=
      List.map_congr_left (fun t ht => by rw [updateOne, if_neg (hall t ht)])
    have hid : st.tasks.map (updateOne tid p now) = st.tasks := by
      rw [hmap]
      exact List.map_id _
    simp [updateTask, hid]

theorem updateTask_frame_witness :
    (updateTask stW "z" {} 5).tasks.length = stW.tasks.length ∧
    updateTask stW "z" {} 5 = stW :=
  ⟨(updateTask_frame stW "z" {} 5).1,
   (updateTask_frame stW "z" {} 5).2.2 (by simp [stW, taskA])⟩

end TaskGlitch
